import Mathlib

/-!
Verification of the Workflow-Guard rule execution pipeline:
a shallow embedding of the condition evaluator
(`src/server/services/evaluator.js`), the action executor
(`executor.js`) and the job scheduler (`scheduler.js`),
with theorems about their error-handling and bookkeeping behaviour.
-/

set_option autoImplicit false

namespace WorkflowGuard

/-- JSON-like values: the data passed through the pipeline
(condition trees, input records, webhook payloads). -/
inductive JsonVal where
  | null
  | bool (b : Bool)
  | num (n : Int)
  | str (s : String)
  | arr (xs : List JsonVal)
  | obj (fields : List (String × JsonVal))

namespace JsonVal

/-- JavaScript `typeof v === 'object' && v !== null`:
true exactly for arrays and plain objects (our `null` models JS null,
for which `typeof` is also object but the falsiness check rules it out
everywhere the source tests objecthood). -/
def isObjectLike : JsonVal → Bool
  | .arr _ => true
  | .obj _ => true
  | _ => false

/-- JavaScript truthiness, as applied by `Boolean(result)` in
`evaluateRule`. -/
def truthy : JsonVal → Bool
  | .null => false
  | .bool b => b
  | .num n => decide (n ≠ 0)
  | .str s => decide (s ≠ "")
  | .arr _ => true
  | .obj _ => true

end JsonVal

/-- `Except` result inspection used throughout the development. -/
def isErrB {ε α : Type} : Except ε α → Bool
  | .error _ => true
  | .ok _ => false

@[simp] theorem isErrB_error {ε α : Type} (e : ε) :
    isErrB (Except.error e : Except ε α) = true := rfl

@[simp] theorem isErrB_ok {ε α : Type} (a : α) :
    isErrB (Except.ok a : Except ε α) = false := rfl

/-! ## Condition evaluator (`src/server/services/evaluator.js`) -/

/-- The `validOperators` list of `validateJsonLogicOperators`. -/
def validOperators : List String :=
  ["==", "===", "!=", "!==", "<", "<=", ">", ">=",
   "and", "or", "not", "in", "!in",
   "var", "missing", "missing_some",
   "cat", "substr", "log", "log10",
   "abs", "ceil", "floor", "round",
   "max", "min", "+", "-", "*", "/", "%",
   "merge", "all", "none", "some",
   "if", "?:", "map", "reduce", "filter"]

/-- The eight comparison operators of the first `switch` group. -/
def comparisonOps : List String :=
  ["==", "===", "!=", "!==", "<", "<=", ">", ">="]

/-- `validateOperatorArguments(operator, args)`: throws (returns
`.error`) on a non-array argument, then switches on the operator and
checks its arity/type contract; operators outside the `switch` cases
pass with no further check (the JS `switch` default). -/
def validateOperatorArguments (operator : String) (args : JsonVal) :
    Except String Unit :=
  match args with
  | .arr l =>
    if operator ∈ comparisonOps then
      if l.length ≠ 2 then
        .error ("Comparison operator '" ++ operator ++
                "' requires exactly 2 arguments")
      else .ok ()
    else if operator = "and" ∨ operator = "or" then
      if l.length < 2 then
        .error ("Logical operator '" ++ operator ++
                "' requires at least 2 arguments")
      else .ok ()
    else if operator = "not" then
      if l.length ≠ 1 then
        .error "Logical operator 'not' requires exactly 1 argument"
      else .ok ()
    else if operator = "var" then
      if l.length ≠ 1 then
        .error "Operator 'var' requires exactly 1 string argument"
      else
        match l.head? with
        | some (.str _) => .ok ()
        | _ => .error "Operator 'var' requires exactly 1 string argument"
    else if operator = "in" ∨ operator = "!in" then
      if l.length ≠ 2 then
        .error ("Membership operator '" ++ operator ++
                "' requires exactly 2 arguments")
      else .ok ()
    else .ok ()
  | _ =>
    .error ("Operator '" ++ operator ++
            "' requires an array of arguments")

mutual
/-- `validateJsonLogicOperators(condition)`: iterates over the
entries of the node.  A key in `validOperators` has its value checked
by `validateOperatorArguments` — and, crucially, the walker does NOT
recurse into that value.  A non-operator key whose value is
object-like is recursed into.  JS `Object.entries` on an array yields
its elements under index keys (never operator names), so arrays
recurse elementwise. -/
def validateJsonLogicOperators : JsonVal → Except String Unit
  | .obj fields => validateJLOFields fields
  | .arr xs => validateJLOElems xs
  | _ => .ok ()

/-- One step of the `for (const [key, value] of Object.entries ...)`
loop over an object node: the first thrown error wins. -/
def validateJLOFields : List (String × JsonVal) → Except String Unit
  | [] => .ok ()
  | (key, value) :: rest =>
    match (if key ∈ validOperators then
             validateOperatorArguments key value
           else if key ≠ "var" ∧ value.isObjectLike then
             validateJsonLogicOperators value
           else .ok ()) with
    | .error e => .error e
    | .ok () => validateJLOFields rest

/-- The same loop over an array node: index keys "0", "1", … are
never in `validOperators`, so each object-like element is recursed
into. -/
def validateJLOElems : List JsonVal → Except String Unit
  | [] => .ok ()
  | value :: rest =>
    match (if value.isObjectLike then
             validateJsonLogicOperators value
           else .ok ()) with
    | .error e => .error e
    | .ok () => validateJLOElems rest
end

/-- `checkCircularReferences(obj)`: the source walks the tree with a
`WeakSet` of visited node identities and throws on revisiting one.
Our embedding is a structural tree — two nodes never alias — so the
reference-identity check can never fire and the walk returns cleanly. -/
def checkCircularReferences (_condition : JsonVal) : Except String Unit :=
  .ok ()

/-- `validateCondition(condition)`: rejects non-objects
(`!condition || typeof condition !== 'object'`), then runs the
circular-reference check and the operator validation. -/
def validateCondition (condition : JsonVal) : Except String Unit :=
  if ¬ condition.isObjectLike then
    .error "Condition must be a valid JSON object"
  else
    match checkCircularReferences condition with
    | .error e => .error e
    | .ok () => validateJsonLogicOperators condition

/-- `preprocessData(data)`: non-objects (and JS null) become `{}`;
an array is spread into an index-keyed object; an object is shallow
copied (the undefined→null fixup has no effect on JSON trees, which
cannot hold undefined). -/
def preprocessData : JsonVal → JsonVal
  | .obj fields => .obj fields
  | .arr xs => .obj (xs.enum.map fun p => (toString p.1, p.2))
  | _ => .obj []

/-- `evaluateRule(condition, data)`: validates the condition, then
applies the JSON-Logic engine (an external collaborator, passed in as
`apply`; it may throw) to the preprocessed data, and coerces the
result with `Boolean(...)`.  The whole body is wrapped in
`try/catch`: any error from validation or from `apply` yields
`false`. -/
def evaluateRule (apply : JsonVal → JsonVal → Except String JsonVal)
    (condition : JsonVal) (data : JsonVal) : Bool :=
  match validateCondition condition with
  | .error _ => false
  | .ok () =>
    match apply condition (preprocessData data) with
    | .error _ => false
    | .ok v => v.truthy

/-! ## Action executor (`src/server/services/executor.js`) -/

/-- The configuration values the executor reads
(`config.webhookTimeoutMs`, `config.webhookMaxRetries`; defaults
10000 ms and 3). -/
structure ExecConfig where
  webhookTimeoutMs : Int := 10000
  webhookMaxRetries : Int := 3

/-- What one `axios(requestConfig)` call can do, as seen by the retry
loop: resolve with a status, or reject with an optional
`error.response.status` (absent for network errors and timeouts) and
a message. -/
inductive AttemptOutcome where
  | ok (status : Nat)
  | err (status : Option Nat) (msg : String)
  deriving DecidableEq

/-- The loop's early-exit test:
`error.response?.status >= 400 && < 500 && !== 429`.
An absent status (network error / timeout) compares false in JS, so
it is never terminal. -/
def isTerminalClientError : Option Nat → Bool
  | some s => decide (400 ≤ s) && decide (s < 500) && decide (s ≠ 429)
  | none => false

/-- A successful webhook call as returned from inside the loop. -/
structure WebhookSuccess where
  status : Nat
  attempt : Nat
  deriving DecidableEq

/-- Result of one `executeWebhook` call: how many attempts the loop
performed, and the value returned / error thrown. -/
structure WebhookRun where
  attempts : Nat
  result : Except String WebhookSuccess

/-- The `throw` after the loop:
``new Error(`Webhook execution failed after ${retries} attempts: ${lastError.message}`)``.
When the loop body never ran, `lastError` is still `undefined` and
reading `.message` from it throws a TypeError instead — either way an
error propagates out of `executeWebhook`. -/
def webhookFailureMessage (retries : Int) :
    Option (Option Nat × String) → String
  | some lastError =>
    "Webhook execution failed after " ++ toString retries ++
    " attempts: " ++ lastError.2
  | none =>
    "TypeError: Cannot read properties of undefined (reading 'message')"

/-- The retry loop `for (let attempt = 1; attempt <= retries; attempt++)`
of `executeWebhook`.  `fuel` is the number of iterations left
(`retries - attempt + 1` at entry).  A resolved call returns
immediately; a terminal client error breaks out of the loop (and the
code after the loop throws); any other error records `lastError`,
backs off, and retries. -/
def webhookGo (transport : Nat → AttemptOutcome) (retries : Int) :
    Nat → Nat → Option (Option Nat × String) → WebhookRun
  | 0, _, lastError =>
    { attempts := 0, result := .error (webhookFailureMessage retries lastError) }
  | fuel + 1, attempt, _ =>
    match transport attempt with
    | .ok s =>
      { attempts := 1, result := .ok { status := s, attempt := attempt } }
    | .err st msg =>
      if isTerminalClientError st then
        { attempts := 1,
          result := .error (webhookFailureMessage retries (some (st, msg))) }
      else
        let rest := webhookGo transport retries fuel (attempt + 1)
                      (some (st, msg))
        { attempts := rest.attempts + 1, result := rest.result }

/-- An action descriptor (`webhook` is the only supported `type`).
Fields not read by the retry loop or by `validateAction`
(`transform`, `includeMetadata`, …) are omitted. -/
structure Action where
  type : String
  url : Option String := none
  method : Option String := none
  headers : List (String × String) := []
  timeout : Option Int := none
  retries : Option Int := none
  deriving DecidableEq

/-- `executeWebhook(action, data, context)`: destructures the action
(`retries = config.webhookMaxRetries` only when the field is absent —
an explicit `retries: 0` is kept), throws before any attempt when the
URL is missing/empty, and otherwise runs the retry loop.  The
`transport` parameter stands for axios, the external HTTP
collaborator: it maps the attempt number to that call's outcome. -/
def executeWebhook (cfg : ExecConfig) (transport : Nat → AttemptOutcome)
    (action : Action) : WebhookRun :=
  let retries : Int := action.retries.getD cfg.webhookMaxRetries
  match action.url with
  | none => { attempts := 0, result := .error "Webhook URL is required" }
  | some u =>
    if u = "" then
      { attempts := 0, result := .error "Webhook URL is required" }
    else
      webhookGo transport retries retries.toNat 1 none

/-- One entry of the list `executeActions` returns: either the value
`executeWebhook` resolved with, or the failure object built in the
`catch` block. -/
structure ActionResult where
  success : Bool
  action : Action
  status : Option Nat := none
  attempt : Option Nat := none
  error : Option String := none
  deriving DecidableEq

/-- `executeAction(action, data, context)`: dispatches on
`action.type`; only `webhook` is supported, anything else throws
`Unsupported action type`.  The surrounding `try/catch` in the source
logs and re-throws, so errors pass through unchanged. -/
def executeAction (cfg : ExecConfig) (transport : Nat → AttemptOutcome)
    (action : Action) : Except String ActionResult :=
  if action.type = "webhook" then
    match (executeWebhook cfg transport action).result with
    | .ok s =>
      .ok { success := true, action := action, status := some s.status,
            attempt := some s.attempt }
    | .error e => .error e
  else
    .error ("Unsupported action type: " ++ action.type)

/-- `executeActions(actions, data, context)`: the for-loop pushing
one result per action; a throw from `executeAction` is caught and
pushed as `{success: false, action, error}`, and the loop continues
with the next action.  `transport` maps each action to its own HTTP
behaviour. -/
def executeActions (cfg : ExecConfig)
    (transport : Action → Nat → AttemptOutcome) :
    List Action → List ActionResult
  | [] => []
  | action :: rest =>
    (match executeAction cfg (transport action) action with
     | .ok r => r
     | .error e => { success := false, action := action, error := some e })
    :: executeActions cfg transport rest

/-- The HTTP methods `validateAction` accepts. -/
def allowedMethods : List String := ["GET", "POST", "PUT", "PATCH", "DELETE"]

/-- `validateAction(action)`: the non-throwing checker returning a
list of error strings.  JS truthiness guards each optional check:
`action.timeout && ...` and `action.retries && ...` skip the range
check entirely when the field is absent — or when it is `0`, which is
falsy.  `isValidUrl` stands for the `new URL(...)` try/catch, an
external runtime facility. -/
def validateAction (isValidUrl : String → Bool) (action : Action) :
    List String :=
  (if action.type = "" then ["Action type is required"] else []) ++
  (if action.type = "webhook" then
    (match action.url with
     | none => ["Webhook URL is required"]
     | some u =>
       if u = "" then ["Webhook URL is required"]
       else if ¬ isValidUrl u then ["Invalid webhook URL"]
       else []) ++
    (match action.method with
     | some m =>
       if m ≠ "" ∧ m.toUpper ∉ allowedMethods then ["Invalid HTTP method"]
       else []
     | none => []) ++
    (match action.timeout with
     | some t =>
       if t ≠ 0 ∧ (t < 1000 ∨ t > 30000) then
         ["Timeout must be a number between 1000 and 30000 ms"]
       else []
     | none => []) ++
    (match action.retries with
     | some r =>
       if r ≠ 0 ∧ (r < 0 ∨ r > 10) then
         ["Retries must be a number between 0 and 10"]
       else []
     | none => [])
  else [])

/-! ## Rules and batch evaluation -/

/-- A rule as the evaluator and scheduler consume it: id, name, the
condition tree, the action list, and the optional cron schedule. -/
structure Rule where
  id : String
  name : String
  conditions : JsonVal := .obj []
  actions : List Action := []
  schedule : Option String := none

/-- One entry of the list `evaluateRules` returns.  The success-path
push carries no `error` key; the `catch` push would carry one, but
`evaluateRule` catches every error internally and returns a boolean,
so that branch of the source is unreachable and every entry has
`error = none`. -/
structure RuleEvalEntry where
  ruleId : String
  ruleName : String
  matched : Bool
  error : Option String := none
  deriving DecidableEq

/-- The entry `evaluateRules` builds for one rule: the (always
reached) `try`-branch push. -/
def ruleEvalEntryFor (apply : JsonVal → JsonVal → Except String JsonVal)
    (data : JsonVal) (rule : Rule) : RuleEvalEntry :=
  { ruleId := rule.id, ruleName := rule.name,
    matched := evaluateRule apply rule.conditions data }

/-- `evaluateRules(rules, data, context)`: the for-loop over the
rules, pushing one entry per rule. -/
def evaluateRules (apply : JsonVal → JsonVal → Except String JsonVal)
    (data : JsonVal) : List Rule → List RuleEvalEntry
  | [] => []
  | rule :: rest =>
    ruleEvalEntryFor apply data rule :: evaluateRules apply data rest

/-! ## Job scheduler (`src/server/services/scheduler.js`) -/

/-- A scheduler job: the node-cron timer handle stored in the job
`Map`.  `running` models whether the underlying timer is started
(`job.start()` / `job.stop()`). -/
structure Job where
  schedule : String
  running : Bool
  deriving DecidableEq

/-- The mutable state of the `SchedulerService` singleton: the
`jobs : Map ruleId → Job` (an insertion-ordered key-value list, as a
JS `Map` is) and the `isRunning` flag. -/
structure SchedulerState where
  jobs : List (String × Job) := []
  isRunning : Bool := false

/-- `this.jobs.has(id)`. -/
def jobsHas (jobs : List (String × Job)) (id : String) : Bool :=
  (jobs.find? fun p => p.1 = id).isSome

/-- `this.jobs.get(id)`. -/
def jobsGet (jobs : List (String × Job)) (id : String) : Option Job :=
  (jobs.find? fun p => p.1 = id).map (fun p => p.2)

/-- `this.jobs.get(id).stop()`: the handle stored in the map is
mutated in place, so the map now holds a stopped job under `id`. -/
def jobsStop (jobs : List (String × Job)) (id : String) :
    List (String × Job) :=
  jobs.map fun p =>
    if p.1 = id then (p.1, { p.2 with running := false }) else p

/-- `this.jobs.set(id, job)`: a JS `Map.set` overwrites the value of
an existing key in place (keeping its position) and otherwise appends
a new entry. -/
def jobsSet (jobs : List (String × Job)) (id : String) (job : Job) :
    List (String × Job) :=
  if jobsHas jobs id then
    jobs.map fun p => if p.1 = id then (p.1, job) else p
  else
    jobs ++ [(id, job)]

/-- `scheduleRule(rule)`: returns at once on a falsy schedule;
otherwise first stops any existing job for the rule id, then inside
`try` validates the cron expression — an invalid one throws, and the
`catch` only logs, leaving the (stopped) old entry in the map — and
on success creates a fresh timer, starts it, and stores it under the
rule id.  `cronValidate` stands for node-cron's `cron.validate`. -/
def scheduleRule (cronValidate : String → Bool) (s : SchedulerState)
    (rule : Rule) : SchedulerState :=
  match rule.schedule with
  | none => s
  | some expr =>
    if expr = "" then s
    else
      let jobs1 := if jobsHas s.jobs rule.id then jobsStop s.jobs rule.id
                   else s.jobs
      if cronValidate expr then
        { s with jobs := jobsSet jobs1 rule.id
                           { schedule := expr, running := true } }
      else
        { s with jobs := jobs1 }

/-- One element of the array `getJobsStatus` returns.  The source
also reads `job.nextDate()` from the timer handle; that value comes
from the external cron library and plays no role in the counting
claims, so it is not modelled. -/
structure JobStatus where
  ruleId : String
  running : Bool
  deriving DecidableEq

/-- `getJobsStatus()`: one status entry per entry of the job map. -/
def getJobsStatus (s : SchedulerState) : List JobStatus :=
  s.jobs.map fun p => { ruleId := p.1, running := p.2.running }

/-- Shape of the value `testCronExpression` returns. -/
structure CronTestResult where
  valid : Bool
  nextExecutions : Option (List Int) := none
  error : Option String := none
  deriving DecidableEq

/-- The `for (let i = 0; i < 5; i++) nextDates.push(job.nextDate())`
loop: every iteration pushes the next fire time of the same dry-run
job, with nothing advancing between iterations. -/
def cronPreviewLoop (fireTime : Int) : Nat → List Int
  | 0 => []
  | k + 1 => fireTime :: cronPreviewLoop fireTime k

/-- Modelled from the spec: the cron library (`node-cron`) consumed
by `testCronExpression` is not part of this repository.  Per the spec
its timer handle previews "the next five fire times"; `nextDate` is
the handle's next-fire-time query, a function of the cron expression
and the current clock `now` — and neither the clock nor any job state
advances between the five consecutive `job.nextDate()` calls the
source makes. -/
def testCronExpression (cronValidate : String → Bool)
    (nextDate : String → Int → Int) (now : Int) (expr : String) :
    CronTestResult :=
  if ¬ cronValidate expr then
    { valid := false, error := some "Invalid cron expression format" }
  else
    { valid := true,
      nextExecutions := some (cronPreviewLoop (nextDate expr now) 5) }

/-! ## Derived notions used by the statements -/

/-- The entry `executeActions` ends up pushing for one action:
the resolved `ActionResult`, or the `catch`-block failure object. -/
def actionEntry (cfg : ExecConfig)
    (transport : Action → Nat → AttemptOutcome) (action : Action) :
    ActionResult :=
  match executeAction cfg (transport action) action with
  | .ok r => r
  | .error e => { success := false, action := action, error := some e }

/-- The operators whose argument contracts the claim under scrutiny
enumerates: the comparison operators, `and`, `or`, `not`, `var`. -/
def claimCheckedOps : List String :=
  comparisonOps ++ ["and", "or", "not", "var"]

/-- Spec-side reading of an argument-list contract violation, written
from the claim's words: comparison operators take exactly 2
arguments, `and`/`or` at least 2, `not` exactly 1, `var` exactly 1
string argument (a non-array argument list violates every one of
these contracts). -/
def claimArityViolation (op : String) (args : JsonVal) : Bool :=
  if op ∈ comparisonOps then
    match args with
    | .arr l => decide (l.length ≠ 2)
    | _ => true
  else if op = "and" ∨ op = "or" then
    match args with
    | .arr l => decide (l.length < 2)
    | _ => true
  else if op = "not" then
    match args with
    | .arr l => decide (l.length ≠ 1)
    | _ => true
  else if op = "var" then
    match args with
    | .arr [JsonVal.str _] => false
    | _ => true
  else false

/-- Wraps a value under a chain of single keys:
`wrapKeys [k1, k2] v` is the expression `{k1: {k2: v}}`.  With every
key outside `validOperators`, this walks exactly the positions the
operator validation recurses into. -/
def wrapKeys : List String → JsonVal → JsonVal
  | [], v => v
  | k :: ks, v => .obj [(k, wrapKeys ks v)]

/-- Number of entries of the job map carrying a given rule id. -/
def keyCount (jobs : List (String × Job)) (id : String) : Nat :=
  (jobs.filter fun p => p.1 = id).length

/-! ## Concrete fixtures for witnesses and counterexamples -/

/-- A JSON-Logic engine stub that always resolves to `true`; used to
show batch behaviour independent of the engine. -/
def applyOkTrue : JsonVal → JsonVal → Except String JsonVal :=
  fun _ _ => .ok (.bool true)

/-- A rule with a well-formed condition. -/
def ruleWellFormed : Rule :=
  { id := "r1", name := "one",
    conditions := .obj [("==", .arr [.num 1, .num 1])] }

/-- A rule whose condition is malformed: a bare number fails
`validateCondition`'s object check. -/
def ruleMalformed : Rule :=
  { id := "r2", name := "two", conditions := .num 5 }

/-- Another well-formed rule, scheduled after the malformed one. -/
def ruleWellFormed2 : Rule :=
  { id := "r3", name := "three",
    conditions := .obj [(">", .arr [.num 2, .num 1])] }

/-- The batch `[well-formed, malformed, well-formed]`. -/
def rulesBatch : List Rule := [ruleWellFormed, ruleMalformed, ruleWellFormed2]

/-- A webhook target that answers 500 on the first three attempts and
200 from the fourth on. -/
def transport500x3 : Nat → AttemptOutcome :=
  fun n => if n ≤ 3 then .err (some 500) "Request failed with status code 500"
           else .ok 200

/-- A webhook target that answers 404 immediately. -/
def transport404 : Nat → AttemptOutcome :=
  fun _ => .err (some 404) "Request failed with status code 404"

/-- A webhook action with the 3-retry configuration made explicit. -/
def actionRetry3 : Action :=
  { type := "webhook", url := some "https://example.com/hook",
    retries := some 3 }

/-- A webhook action whose `retries` field is 0. -/
def actionRetry0 : Action :=
  { type := "webhook", url := some "https://example.com/hook",
    retries := some 0 }

/-- An action of an unsupported type. -/
def actionEmail : Action := { type := "email" }

/-- Per-action transport for fixtures: routes by retries field. -/
def transportByAction : Action → Nat → AttemptOutcome :=
  fun a => if a = actionRetry3 then transport500x3 else transport404

/-- An expression nesting an arity-violating `not` inside the
argument list of an `and`. -/
def nestedViolationCond : JsonVal :=
  .obj [("and", .arr [.obj [("not", .arr [.num 1, .num 2])],
                      .bool true])]

/-- A rule carrying a (syntactically valid) six-field schedule. -/
def ruleScheduled : Rule :=
  { id := "sched-1", name := "nightly", schedule := some "0 */5 * * * *" }

/-- A scheduler state with one running job for `ruleScheduled`. -/
def stateOneJob : SchedulerState :=
  { jobs := [("sched-1", { schedule := "*/1 * * * * *", running := true })] }

/-- A cron validator stub accepting everything. -/
def cronAcceptAll : String → Bool := fun _ => true

/-- A cron validator stub rejecting everything. -/
def cronRejectAll : String → Bool := fun _ => false

/-- A next-fire-time stub: five minutes (in ms) past the clock. -/
def nextDateStub : String → Int → Int := fun _ now => now + 300000

/-! ## Helper lemmas -/

lemma evaluateRule_eq_false_of_err
    (apply : JsonVal → JsonVal → Except String JsonVal)
    (condition data : JsonVal)
    (h : isErrB (validateCondition condition) = true ∨
         isErrB (apply condition (preprocessData data)) = true) :
    evaluateRule apply condition data = false := by
  unfold evaluateRule
  cases hv : validateCondition condition with
  | error e => rfl
  | ok u =>
    cases u
    cases ha : apply condition (preprocessData data) with
    | error e => rfl
    | ok v =>
      rcases h with h | h
      · rw [hv] at h; simp [isErrB] at h
      · rw [ha] at h; simp [isErrB] at h

lemma claimChecked_mem_validOperators (op : String)
    (h : op ∈ claimCheckedOps) : op ∈ validOperators := by
  fin_cases h <;> decide

lemma claimViolation_opArgs_err (op : String) (args : JsonVal)
    (hv : claimArityViolation op args = true) :
    isErrB (validateOperatorArguments op args) = true := by
  unfold claimArityViolation at hv
  unfold validateOperatorArguments
  by_cases h1 : op ∈ comparisonOps
  · simp only [h1, if_true] at hv ⊢
    cases args with
    | arr l => simp at hv; simp [hv]
    | null => rfl
    | bool b => rfl
    | num n => rfl
    | str s => rfl
    | obj fields => rfl
  · simp only [h1, if_false] at hv ⊢
    by_cases h2 : op = "and" ∨ op = "or"
    · simp only [h2, if_true] at hv ⊢
      cases args with
      | arr l => simp at hv; simp [hv]
      | null => rfl
      | bool b => rfl
      | num n => rfl
      | str s => rfl
      | obj fields => rfl
    · simp only [h2, if_false] at hv ⊢
      by_cases h3 : op = "not"
      · simp only [h3, if_true] at hv ⊢
        cases args with
        | arr l => simp at hv; simp [hv]
        | null => rfl
        | bool b => rfl
        | num n => rfl
        | str s => rfl
        | obj fields => rfl
      · simp only [h3, if_false] at hv ⊢
        by_cases h4 : op = "var"
        · simp only [h4, if_true] at hv ⊢
          cases args with
          | arr l =>
            match l with
            | [] => simp
            | [JsonVal.str s] => simp at hv
            | [JsonVal.null] => simp
            | [JsonVal.bool b] => simp
            | [JsonVal.num n] => simp
            | [JsonVal.arr xs] => simp
            | [JsonVal.obj fs] => simp
            | x :: y :: rest => simp
          | null => rfl
          | bool b => rfl
          | num n => rfl
          | str s => rfl
          | obj fields => rfl
        · simp only [h4, if_false] at hv
          simp at hv

/-! ## Claims -/

/-- C1: for every condition expression and input record,
`evaluateRule` returns a boolean (its return type) and never throws:
if validation of the condition or the JSON-Logic evaluation against
the record raises any error, the error is caught and the result is
`false` — a malformed or ambiguous condition never yields a match. -/
theorem evaluateRule_fail_closed
    (apply : JsonVal → JsonVal → Except String JsonVal)
    (condition data : JsonVal)
    (h : isErrB (validateCondition condition) = true ∨
         isErrB (apply condition (preprocessData data)) = true) :
    evaluateRule apply condition data = false :=
  evaluateRule_eq_false_of_err apply condition data h

/-- Witness for C1: a bare-number condition fails validation and the
evaluation degrades to `false`. -/
theorem evaluateRule_fail_closed_instance :
    evaluateRule applyOkTrue (JsonVal.num 5) (JsonVal.obj []) = false :=
  evaluateRule_fail_closed applyOkTrue (JsonVal.num 5) (JsonVal.obj [])
    (Or.inl (by decide))

/-- C2: `executeActions` returns exactly one `ActionResult` per
action, in input order — it is pointwise the per-action entry — and
never throws; a failing action (an unsupported type included) becomes
a `success := false` entry and leaves every other entry untouched. -/
theorem executeActions_one_result_per_action
    (cfg : ExecConfig) (transport : Action → Nat → AttemptOutcome)
    (actions : List Action) :
    executeActions cfg transport actions =
      actions.map (actionEntry cfg transport) ∧
    (∀ a : Action, a.type ≠ "webhook" →
      actionEntry cfg transport a =
        { success := false, action := a,
          error := some ("Unsupported action type: " ++ a.type) }) ∧
    (∀ (a : Action) (e : String),
      executeAction cfg (transport a) a = .error e →
      actionEntry cfg transport a =
        { success := false, action := a, error := some e }) := by
  refine ⟨?_, ?_, ?_⟩
  · induction actions with
    | nil => rfl
    | cons a rest ih =>
      simp only [executeActions, List.map, actionEntry, ih]
  · intro a ha
    unfold actionEntry executeAction
    simp [ha]
  · intro a e he
    unfold actionEntry
    rw [he]

/-- Witness for C2: an unsupported action type is captured as a
failure entry. -/
theorem executeActions_one_result_per_action_instance :
    actionEntry {} transportByAction actionEmail =
      { success := false, action := actionEmail,
        error := some ("Unsupported action type: " ++ actionEmail.type) } :=
  (executeActions_one_result_per_action {} transportByAction
    [actionEmail]).2.1 actionEmail (by decide)

/-- Counterexample for C4: in the batch
`[well-formed, malformed, well-formed]`, the malformed rule's entry
reports `matched := false` but carries NO error marker
(`error = none`), because `evaluateRule` catches the validation error
internally; the claim asserts an error marker is present. -/
theorem evaluateRules_no_error_marker :
    isErrB (validateCondition ruleMalformed.conditions) = true ∧
    (evaluateRules applyOkTrue (JsonVal.obj []) rulesBatch).length = 3 ∧
    (evaluateRules applyOkTrue (JsonVal.obj []) rulesBatch)[1]? =
      some { ruleId := "r2", ruleName := "two", matched := false,
             error := none } := by
  decide

/-- C4 (amended): `evaluateRules` returns exactly N entries in rule
order, each entry a function of its own rule alone; a rule whose
condition is malformed gets `matched := false` — but, the error being
swallowed inside `evaluateRule`, with NO error marker (`error = none`,
like every entry); the other rules' entries are unaffected. -/
theorem evaluateRules_batch_isolation
    (apply : JsonVal → JsonVal → Except String JsonVal)
    (data : JsonVal) (rules : List Rule) :
    (evaluateRules apply data rules).length = rules.length ∧
    (∀ (k : Nat) (r : Rule), rules[k]? = some r →
      (evaluateRules apply data rules)[k]? =
        some (ruleEvalEntryFor apply data r)) ∧
    (∀ r : Rule, isErrB (validateCondition r.conditions) = true →
      (ruleEvalEntryFor apply data r).matched = false ∧
      (ruleEvalEntryFor apply data r).error = none) := by
  refine ⟨?_, ?_, ?_⟩
  · induction rules with
    | nil => rfl
    | cons r rest ih => simp [evaluateRules, ih]
  · intro k
    induction rules generalizing k with
    | nil => intro r hr; simp at hr
    | cons r0 rest ih =>
      intro r hr
      cases k with
      | zero =>
        simp at hr
        simp [evaluateRules, hr]
      | succ k =>
        simp at hr
        simpa [evaluateRules] using ih k r hr
  · intro r hr
    refine ⟨?_, rfl⟩
    exact evaluateRule_eq_false_of_err apply r.conditions data (Or.inl hr)

/-- Witness for C4 (amended): applied to the concrete three-rule
batch at its malformed middle rule. -/
theorem evaluateRules_batch_isolation_instance :
    (evaluateRules applyOkTrue (JsonVal.obj []) rulesBatch)[1]? =
      some (ruleEvalEntryFor applyOkTrue (JsonVal.obj []) ruleMalformed) ∧
    (ruleEvalEntryFor applyOkTrue (JsonVal.obj []) ruleMalformed).matched
      = false :=
  ⟨(evaluateRules_batch_isolation applyOkTrue (JsonVal.obj [])
      rulesBatch).2.1 1 ruleMalformed rfl,
   ((evaluateRules_batch_isolation applyOkTrue (JsonVal.obj [])
      rulesBatch).2.2 ruleMalformed (by decide)).1⟩

/-- Counterexample for C7: `{"and": [{"not": [1, 2]}, true]}` nests a
recognized operator (`not`) with an arity violation inside the
argument list of another recognized operator (`and`), yet
`validateCondition` succeeds: the walker never recurses into a
recognized operator's arguments. -/
theorem validate_misses_nested_violation :
    claimArityViolation "not" (JsonVal.arr [JsonVal.num 1, JsonVal.num 2])
      = true ∧
    isErrB (validateOperatorArguments "not"
      (JsonVal.arr [JsonVal.num 1, JsonVal.num 2])) = true ∧
    validateCondition nestedViolationCond = Except.ok () :=
  ⟨by decide, by decide, rfl⟩

lemma validateJLO_wrapKeys_err (op : String) (args : JsonVal)
    (hmem : op ∈ validOperators)
    (herr : isErrB (validateOperatorArguments op args) = true) :
    ∀ ks : List String, (∀ k ∈ ks, k ∉ validOperators) →
      isErrB (validateJsonLogicOperators
        (wrapKeys ks (JsonVal.obj [(op, args)]))) = true := by
  intro ks
  induction ks with
  | nil =>
    intro _
    rw [wrapKeys, validateJsonLogicOperators, validateJLOFields]
    simp only [hmem, if_true, ite_true]
    cases h : validateOperatorArguments op args with
    | error e => simp
    | ok u => rw [h] at herr; simp [isErrB] at herr
  | cons k ks ih =>
    intro hks
    have hk : k ∉ validOperators := hks k (List.mem_cons_self k ks)
    have hkvar : k ≠ "var" := fun h =>
      hk (h ▸ (by decide : "var" ∈ validOperators))
    have hrec := ih fun k2 hk2 => hks k2 (List.mem_cons_of_mem k hk2)
    have hobj : (wrapKeys ks (JsonVal.obj [(op, args)])).isObjectLike
        = true := by
      cases ks <;> rfl
    rw [wrapKeys, validateJsonLogicOperators, validateJLOFields]
    simp only [hk, if_false, ite_false, hkvar, hobj, ne_eq,
      not_false_eq_true, and_self, if_true, ite_true]
    cases h : validateJsonLogicOperators
        (wrapKeys ks (JsonVal.obj [(op, args)])) with
    | error e => simp
    | ok u => rw [h] at hrec; simp [isErrB] at hrec

/-- C7 (amended): a recognized checked operator applied to an
argument list violating its arity or type contract makes `validate`
fail with an InvalidArguments error whenever the operator application
stands at a position the walker visits: as the expression itself
(`ks = []`), or nested at any depth as the object value under
non-operator keys.  The walker never recurses into a recognized
operator's argument list, so a violation nested there goes
undetected. -/
theorem validate_rejects_visited_violation
    (op : String) (args : JsonVal) (ks : List String)
    (hop : op ∈ claimCheckedOps)
    (hv : claimArityViolation op args = true)
    (hks : ∀ k ∈ ks, k ∉ validOperators) :
    isErrB (validateCondition (wrapKeys ks (JsonVal.obj [(op, args)])))
      = true := by
  have hmem : op ∈ validOperators := claimChecked_mem_validOperators op hop
  have herr := claimViolation_opArgs_err op args hv
  have hjlo := validateJLO_wrapKeys_err op args hmem herr ks hks
  have hobj : (wrapKeys ks (JsonVal.obj [(op, args)])).isObjectLike
      = true := by
    cases ks <;> rfl
  unfold validateCondition checkCircularReferences
  simp only [hobj, Bool.not_true, Bool.false_eq_true, if_false, ite_false,
    not_false_eq_true, if_neg]
  exact hjlo

/-- Witness for C7 (amended): the mis-used `not` is rejected both at
top level and one level down under the non-operator key "data". -/
theorem validate_rejects_visited_violation_instance :
    isErrB (validateCondition (JsonVal.obj
      [("not", JsonVal.arr [JsonVal.num 1, JsonVal.num 2])])) = true ∧
    isErrB (validateCondition (JsonVal.obj [("data", JsonVal.obj
      [("not", JsonVal.arr [JsonVal.num 1, JsonVal.num 2])])])) = true :=
  ⟨validate_rejects_visited_violation "not"
      (JsonVal.arr [JsonVal.num 1, JsonVal.num 2]) []
      (by decide) (by decide) (by decide),
   validate_rejects_visited_violation "not"
      (JsonVal.arr [JsonVal.num 1, JsonVal.num 2]) ["data"]
      (by decide) (by decide) (by decide)⟩

/-- C9: a webhook action with `retries := 0` — accepted by
`validateAction`, whose truthiness-guarded range check skips the
falsy 0 — makes the attempt loop body never run: zero HTTP attempts,
and the action's entry in the `executeActions` output is a
`success := false` failure result. -/
theorem retries_zero_skips_loop
    (cfg : ExecConfig) (transport : Action → Nat → AttemptOutcome)
    (isValidUrl : String → Bool) (a : Action) (u : String)
    (hty : a.type = "webhook") (hurl : a.url = some u) (hne : u ≠ "")
    (hvu : isValidUrl u = true) (hr : a.retries = some 0)
    (hm : a.method = none) (hto : a.timeout = none) :
    validateAction isValidUrl a = [] ∧
    (executeWebhook cfg (transport a) a).attempts = 0 ∧
    executeActions cfg transport [a] =
      [{ success := false, action := a,
         error := some (webhookFailureMessage 0 none) }] := by
  have hweb : executeWebhook cfg (transport a) a =
      { attempts := 0,
        result := .error (webhookFailureMessage 0 none) } := by
    unfold executeWebhook
    rw [hr, hurl]
    simp only [Option.getD_some, hne, if_neg, if_false]
    rfl
  refine ⟨?_, by rw [hweb], ?_⟩
  · unfold validateAction
    rw [hty, hurl, hm, hto, hr]
    simp [hvu, hne]
  · simp only [executeActions, executeAction, hty, if_pos, hweb]

/-- Witness for C9: the concrete zero-retries webhook action. -/
theorem retries_zero_skips_loop_instance :
    validateAction (fun _ => true) actionRetry0 = [] ∧
    (executeWebhook {} (transportByAction actionRetry0)
      actionRetry0).attempts = 0 ∧
    executeActions {} transportByAction [actionRetry0] =
      [{ success := false, action := actionRetry0,
         error := some (webhookFailureMessage 0 none) }] :=
  retries_zero_skips_loop {} transportByAction (fun _ => true)
    actionRetry0 "https://example.com/hook" rfl rfl (by decide) rfl rfl
    rfl rfl

lemma keys_map_replace (jobs : List (String × Job)) (id : String)
    (g : String × Job → Job) :
    ((jobs.map fun p => if p.1 = id then (p.1, g p) else p).map Prod.fst)
      = jobs.map Prod.fst := by
  induction jobs with
  | nil => rfl
  | cons p rest ih => by_cases h : p.1 = id <;> simp [h, ih]

lemma keys_jobsStop (jobs : List (String × Job)) (id : String) :
    (jobsStop jobs id).map Prod.fst = jobs.map Prod.fst :=
  keys_map_replace jobs id _

lemma jobsHas_cons (k : String) (j : Job) (rest : List (String × Job))
    (id : String) :
    jobsHas ((k, j) :: rest) id = if k = id then true else jobsHas rest id := by
  by_cases h : k = id <;> simp [jobsHas, List.find?, h]

lemma jobsGet_cons (k : String) (j : Job) (rest : List (String × Job))
    (id : String) :
    jobsGet ((k, j) :: rest) id = if k = id then some j
                                  else jobsGet rest id := by
  by_cases h : k = id <;> simp [jobsGet, List.find?, h]

lemma keyCount_cons (k : String) (j : Job) (rest : List (String × Job))
    (id : String) :
    keyCount ((k, j) :: rest) id =
      if k = id then keyCount rest id + 1 else keyCount rest id := by
  by_cases h : k = id <;> simp [keyCount, List.filter_cons, h]

lemma jobsHas_iff_mem (jobs : List (String × Job)) (id : String) :
    jobsHas jobs id = true ↔ id ∈ jobs.map Prod.fst := by
  induction jobs with
  | nil => simp [jobsHas]
  | cons p rest ih =>
    obtain ⟨k, j⟩ := p
    rw [jobsHas_cons]
    by_cases h : k = id
    · simp [h]
    · simp [h, ih, Ne.symm h]

lemma keyCount_eq_zero (jobs : List (String × Job)) (id : String)
    (h : id ∉ jobs.map Prod.fst) : keyCount jobs id = 0 := by
  induction jobs with
  | nil => rfl
  | cons p rest ih =>
    obtain ⟨k, j⟩ := p
    simp only [List.map_cons, List.mem_cons] at h
    push_neg at h
    rw [keyCount_cons, if_neg (fun hk => h.1 hk.symm)]
    exact ih h.2

lemma keyCount_of_mem_nodup (jobs : List (String × Job)) (id : String)
    (hmem : id ∈ jobs.map Prod.fst)
    (hnd : (jobs.map Prod.fst).Nodup) : keyCount jobs id = 1 := by
  induction jobs with
  | nil => simp at hmem
  | cons p rest ih =>
    obtain ⟨k, j⟩ := p
    simp only [List.map_cons, List.nodup_cons] at hnd
    simp only [List.map_cons, List.mem_cons] at hmem
    rw [keyCount_cons]
    by_cases h : k = id
    · rw [if_pos h]
      have hnot : id ∉ rest.map Prod.fst := h ▸ hnd.1
      rw [keyCount_eq_zero rest id hnot]
    · rw [if_neg h]
      rcases hmem with hmem | hmem
      · exact absurd hmem.symm h
      · exact ih hmem hnd.2

lemma keyCount_map_replace (jobs : List (String × Job)) (id0 id : String)
    (g : String × Job → Job) :
    keyCount (jobs.map fun p => if p.1 = id0 then (p.1, g p) else p) id
      = keyCount jobs id := by
  induction jobs with
  | nil => rfl
  | cons p rest ih =>
    obtain ⟨k, j⟩ := p
    have hhead : (if (k, j).1 = id0 then ((k, j).1, g (k, j)) else (k, j)) =
        (k, if k = id0 then g (k, j) else j) := by
      by_cases h0 : k = id0 <;> simp [h0]
    rw [List.map_cons, hhead, keyCount_cons, keyCount_cons, ih]

lemma keyCount_jobsSet (jobs : List (String × Job)) (id : String)
    (j : Job) (hnd : (jobs.map Prod.fst).Nodup) :
    keyCount (jobsSet jobs id j) id = 1 := by
  unfold jobsSet
  by_cases h : jobsHas jobs id = true
  · rw [if_pos h, keyCount_map_replace]
    exact keyCount_of_mem_nodup jobs id ((jobsHas_iff_mem jobs id).1 h) hnd
  · rw [if_neg h]
    have hnot : id ∉ jobs.map Prod.fst := fun hm =>
      h ((jobsHas_iff_mem jobs id).2 hm)
    have h0 : keyCount jobs id = 0 := keyCount_eq_zero jobs id hnot
    unfold keyCount at h0 ⊢
    rw [List.filter_append]
    simp [List.filter_cons, h0]

lemma keys_jobsSet_of_has (jobs : List (String × Job)) (id : String)
    (j : Job) (h : jobsHas jobs id = true) :
    (jobsSet jobs id j).map Prod.fst = jobs.map Prod.fst := by
  unfold jobsSet
  rw [if_pos h]
  exact keys_map_replace jobs id _

lemma keys_jobsSet_of_not_has (jobs : List (String × Job)) (id : String)
    (j : Job) (h : ¬ jobsHas jobs id = true) :
    (jobsSet jobs id j).map Prod.fst = jobs.map Prod.fst ++ [id] := by
  unfold jobsSet
  rw [if_neg h]
  simp

lemma jobsGet_replace (jobs : List (String × Job)) (id : String) (j : Job) :
    jobsGet (jobs.map fun p => if p.1 = id then (p.1, j) else p) id =
      if jobsHas jobs id then some j else none := by
  induction jobs with
  | nil => rfl
  | cons p rest ih =>
    obtain ⟨k, jv⟩ := p
    by_cases h : k = id <;> simp [h, jobsGet_cons, jobsHas_cons, ih]

lemma jobsGet_append_single (jobs : List (String × Job)) (id : String)
    (j : Job) (h : jobsHas jobs id = false) :
    jobsGet (jobs ++ [(id, j)]) id = some j := by
  induction jobs with
  | nil => simp [jobsGet, List.find?]
  | cons p rest ih =>
    obtain ⟨k, jv⟩ := p
    rw [jobsHas_cons] at h
    by_cases hp : k = id
    · simp [hp] at h
    · rw [if_neg hp] at h
      rw [List.cons_append, jobsGet_cons, if_neg hp]
      exact ih h

lemma jobsGet_jobsSet_self (jobs : List (String × Job)) (id : String)
    (j : Job) : jobsGet (jobsSet jobs id j) id = some j := by
  unfold jobsSet
  by_cases h : jobsHas jobs id = true
  · rw [if_pos h, jobsGet_replace, if_pos h]
  · rw [if_neg h]
    exact jobsGet_append_single jobs id j (by simpa using h)

lemma scheduleRule_jobs_valid (cv : String → Bool) (s : SchedulerState)
    (rule : Rule) (expr : String)
    (hsch : rule.schedule = some expr) (hne : expr ≠ "")
    (hval : cv expr = true) :
    (scheduleRule cv s rule).jobs =
      jobsSet (if jobsHas s.jobs rule.id then jobsStop s.jobs rule.id
               else s.jobs)
        rule.id { schedule := expr, running := true } := by
  unfold scheduleRule
  rw [hsch]
  simp [hne, hval]

lemma keys_stop_branch (jobs : List (String × Job)) (id : String) :
    ((if jobsHas jobs id then jobsStop jobs id else jobs).map Prod.fst)
      = jobs.map Prod.fst := by
  by_cases h : jobsHas jobs id <;> simp [h, keys_jobsStop]

lemma scheduleRule_valid_nodup (cv : String → Bool) (s : SchedulerState)
    (rule : Rule) (expr : String)
    (hsch : rule.schedule = some expr) (hne : expr ≠ "")
    (hval : cv expr = true)
    (hnd : (s.jobs.map Prod.fst).Nodup) :
    ((scheduleRule cv s rule).jobs.map Prod.fst).Nodup := by
  rw [scheduleRule_jobs_valid cv s rule expr hsch hne hval]
  set jobs1 := if jobsHas s.jobs rule.id then jobsStop s.jobs rule.id
               else s.jobs with hjobs1
  have hkeys : jobs1.map Prod.fst = s.jobs.map Prod.fst :=
    keys_stop_branch s.jobs rule.id
  by_cases h : jobsHas jobs1 rule.id = true
  · rw [keys_jobsSet_of_has jobs1 rule.id _ h, hkeys]
    exact hnd
  · rw [keys_jobsSet_of_not_has jobs1 rule.id _ h, hkeys]
    have hnot : rule.id ∉ jobs1.map Prod.fst := fun hm =>
      h ((jobsHas_iff_mem jobs1 rule.id).2 hm)
    rw [hkeys] at hnot
    simp [List.nodup_append, hnd, hnot]

lemma status_filter_count (jobs : List (String × Job)) (id : String) :
    ((jobs.map fun p =>
        ({ ruleId := p.1, running := p.2.running } : JobStatus)).filter
      fun st => st.ruleId = id).length = keyCount jobs id := by
  induction jobs with
  | nil => rfl
  | cons p rest ih =>
    obtain ⟨k, jv⟩ := p
    by_cases h : k = id <;> simp [keyCount_cons, List.filter_cons, h, ih]

/-- C6: the scheduler's job table holds at most one job per rule id —
scheduling the same rule a second time (with a valid non-empty cron
expression) replaces that id's entry with the freshly started timer,
so `getJobsStatus` afterwards reports exactly one entry for that id. -/
theorem scheduleRule_twice_single_entry
    (cv : String → Bool) (s : SchedulerState) (rule : Rule)
    (expr : String)
    (hnd : (s.jobs.map Prod.fst).Nodup)
    (hsch : rule.schedule = some expr) (hne : expr ≠ "")
    (hval : cv expr = true) :
    ((getJobsStatus (scheduleRule cv (scheduleRule cv s rule) rule)).filter
        fun st => st.ruleId = rule.id).length = 1 ∧
    jobsGet (scheduleRule cv (scheduleRule cv s rule) rule).jobs rule.id =
      some { schedule := expr, running := true } := by
  have hnd1 := scheduleRule_valid_nodup cv s rule expr hsch hne hval hnd
  have h2 := scheduleRule_jobs_valid cv (scheduleRule cv s rule) rule expr
    hsch hne hval
  constructor
  · rw [getJobsStatus, status_filter_count, h2]
    have hkeys := keys_stop_branch (scheduleRule cv s rule).jobs rule.id
    have hnd2 : (((if jobsHas (scheduleRule cv s rule).jobs rule.id then
          jobsStop (scheduleRule cv s rule).jobs rule.id
        else (scheduleRule cv s rule).jobs)).map Prod.fst).Nodup := by
      rw [hkeys]; exact hnd1
    exact keyCount_jobsSet _ rule.id _ hnd2
  · rw [h2]
    exact jobsGet_jobsSet_self _ rule.id _

/-- Witness for C6: scheduling the same rule twice from the empty
scheduler state. -/
theorem scheduleRule_twice_single_entry_instance :
    ((getJobsStatus (scheduleRule cronAcceptAll
        (scheduleRule cronAcceptAll {} ruleScheduled) ruleScheduled)).filter
      fun st => st.ruleId = ruleScheduled.id).length = 1 :=
  (scheduleRule_twice_single_entry cronAcceptAll {} ruleScheduled
    "0 */5 * * * *" (by simp) rfl (by decide) rfl).1

/-- C10: calling `scheduleRule` for an already-scheduled rule id with
a cron expression that fails validation stops the old timer before
validating and swallows the error: the job table still carries an
entry for the id — `getJobsStatus` keeps reporting it — but the job
it holds is stopped, so no timer for the rule fires any more. -/
theorem scheduleRule_invalid_keeps_stopped_job
    (cv : String → Bool) (s : SchedulerState) (rule : Rule)
    (expr : String)
    (hhas : jobsHas s.jobs rule.id = true)
    (hsch : rule.schedule = some expr) (hne : expr ≠ "")
    (hval : cv expr = false) :
    (∃ st ∈ getJobsStatus (scheduleRule cv s rule),
       st.ruleId = rule.id ∧ st.running = false) ∧
    (∀ st ∈ getJobsStatus (scheduleRule cv s rule),
       st.ruleId = rule.id → st.running = false) := by
  have hjobs : (scheduleRule cv s rule).jobs = jobsStop s.jobs rule.id := by
    unfold scheduleRule
    rw [hsch]
    simp [hne, hval, hhas]
  rw [getJobsStatus, hjobs, jobsStop, List.map_map]
  constructor
  · have hmem : rule.id ∈ s.jobs.map Prod.fst :=
      (jobsHas_iff_mem s.jobs rule.id).1 hhas
    rw [List.mem_map] at hmem
    obtain ⟨p, hp, hpid⟩ := hmem
    refine ⟨{ ruleId := rule.id, running := false }, ?_, rfl, rfl⟩
    rw [List.mem_map]
    exact ⟨p, hp, by simp [Function.comp, hpid]⟩
  · intro st hst hstid
    rw [List.mem_map] at hst
    obtain ⟨p, hp, heq⟩ := hst
    by_cases h : p.1 = rule.id
    · rw [← heq]
      simp [Function.comp, h]
    · rw [← heq] at hstid
      simp [Function.comp, h] at hstid

/-- Witness for C10: a one-job table, rescheduled with a rejected
expression. -/
theorem scheduleRule_invalid_keeps_stopped_job_instance :
    (∃ st ∈ getJobsStatus (scheduleRule cronRejectAll stateOneJob
        ruleScheduled),
       st.ruleId = ruleScheduled.id ∧ st.running = false) ∧
    (∀ st ∈ getJobsStatus (scheduleRule cronRejectAll stateOneJob
        ruleScheduled),
       st.ruleId = ruleScheduled.id → st.running = false) :=
  scheduleRule_invalid_keeps_stopped_job cronRejectAll stateOneJob
    ruleScheduled "0 */5 * * * *" (by decide) rfl (by decide) rfl

/-- C8 (code bug): on an expression passing cron validation,
`testCronExpression` does report `valid := true` with a
`nextExecutions` list of exactly 5 entries, and on a failing
expression it returns `{valid: false, error}` without throwing — but
the 5 entries are all the SAME timestamp (the loop queries the same
dry-run job five times with nothing advancing), so they are never
each 5 minutes after the previous one as the claim (and the
function's own "get next 5 execution times" intent) requires. -/
theorem testCronExpression_repeats_one_timestamp :
    (∀ (cv : String → Bool) (nd : String → Int → Int) (now : Int)
       (expr : String), cv expr = true →
       (testCronExpression cv nd now expr).valid = true ∧
       (testCronExpression cv nd now expr).nextExecutions =
         some (cronPreviewLoop (nd expr now) 5) ∧
       (cronPreviewLoop (nd expr now) 5).length = 5 ∧
       (∀ x ∈ cronPreviewLoop (nd expr now) 5, x = nd expr now) ∧
       ¬ (∀ (i : Nat) (hi : i + 1 < (cronPreviewLoop (nd expr now) 5).length),
            (cronPreviewLoop (nd expr now) 5).get ⟨i + 1, hi⟩ =
              (cronPreviewLoop (nd expr now) 5).get
                ⟨i, Nat.lt_of_succ_lt hi⟩ + 300000)) ∧
    (∀ (cv : String → Bool) (nd : String → Int → Int) (now : Int)
       (expr : String), cv expr = false →
       testCronExpression cv nd now expr =
         { valid := false, error := some "Invalid cron expression format",
           nextExecutions := none }) := by
  constructor
  · intro cv nd now expr h
    unfold testCronExpression
    simp only [h, Bool.not_true, Bool.false_eq_true, if_false, ite_false]
    refine ⟨rfl, rfl, rfl, ?_, ?_⟩
    · intro x hx
      simp only [cronPreviewLoop, List.mem_cons, List.not_mem_nil,
        or_false] at hx
      rcases hx with rfl | rfl | rfl | rfl | rfl <;> rfl
    · intro hall
      have h0 := hall 0 (by simp [cronPreviewLoop])
      simp only [cronPreviewLoop, List.get] at h0
      omega
  · intro cv nd now expr h
    unfold testCronExpression
    simp [h]

/-- Witness for C8: a concrete valid expression previews five equal
timestamps. -/
theorem testCronExpression_repeats_one_timestamp_instance :
    (testCronExpression cronAcceptAll nextDateStub 0
      "0 */5 * * * *").valid = true ∧
    (testCronExpression cronAcceptAll nextDateStub 0
      "0 */5 * * * *").nextExecutions =
      some (cronPreviewLoop (nextDateStub "0 */5 * * * *" 0) 5) :=
  ⟨(testCronExpression_repeats_one_timestamp.1 cronAcceptAll nextDateStub 0
      "0 */5 * * * *" rfl).1,
   (testCronExpression_repeats_one_timestamp.1 cronAcceptAll nextDateStub 0
      "0 */5 * * * *" rfl).2.1⟩

end WorkflowGuard

